import Mathlib

/-! Verification of the rasqal query-result format registry and content-type
detector (`rasqal_result_formats.c`), via a shallow embedding in Lean 4.

Modelling conventions:
* C NULL-terminated arrays of strings become `List String`; a pointer that
  may be NULL becomes an `Option`.
* `raptor_type_q` arrays are a `List TypeQ` of the declared entries plus the
  `q` field of the terminating `{NULL, 0, 0}` entry (`mime_types_term_q`),
  because the scan in `rasqal_world_guess_query_results_format_name` reads
  the `q` of the terminator when no entry matches (its loop variable `type_q`
  holds the *address* `&mime_types[j]`, which is never NULL).
* Behaviours (`get_rowsource`, `write`) are modelled by presence flags;
  `recognise_syntax` by an optional pure function over the arguments the C
  code passes it.
* Code paths that dereference a NULL pointer or index past an allocation are
  the `Except.error` branch of the embedding.
* Allocation failures (calloc/malloc returning NULL) are not modelled; every
  allocation succeeds.
-/

namespace Rasqal

def RASQAL_QUERY_RESULTS_FORMAT_FLAG_READER : Nat := 1
def RASQAL_QUERY_RESULTS_FORMAT_FLAG_WRITER : Nat := 2

/-- One `raptor_type_q` entry: a MIME type string and its quality 0..10.
(The `mime_type_len` field is redundant with the string and not modelled.) -/
structure TypeQ where
  mime_type : String
  q : Nat
deriving DecidableEq

/-- `raptor_syntax_description`, the fields this file reads or writes.
`mime_types_term_q` is the `q` field of the terminating entry of the array
(`{NULL, 0, 0}` in every shipped format table, hence 0). -/
structure Desc where
  names : Option (List String)
  label : Option String
  uri_strings : Option (List String)
  mime_types : Option (List TypeQ)
  mime_types_term_q : Nat
  flags : Nat

/-- Arguments of the `recognise_syntax` callback, in source order:
buffer, len, identifier, suffix, mime_type. -/
abbrev RecogniseFn :=
  Option (List Nat) → Nat → Option String → Option String → Option String → Int

/-- `rasqal_query_results_format_factory`: descriptor plus behaviours.
`get_rowsource` and `write` record whether the behaviour pointer is
non-NULL; `recognise` models the `recognise_syntax` callback. -/
structure Factory where
  desc : Desc
  get_rowsource : Bool
  write : Bool
  recognise : Option RecogniseFn

/-- The factory as produced by `RASQAL_CALLOC` (all fields zero / NULL);
line 71 additionally sets `desc.mime_types = NULL` explicitly. -/
def emptyFactory : Factory :=
  { desc := { names := none, label := none, uri_strings := none,
              mime_types := none, mime_types_term_q := 0, flags := 0 },
    get_rowsource := false, write := false, recognise := none }

/-- Flag derivation shared by registration (lines 88-92) and the selector
(lines 196-199): READER iff `get_rowsource` is supplied, WRITER iff
`write` is supplied. -/
def factoryFlags (f : Factory) : Nat :=
  (if f.get_rowsource then RASQAL_QUERY_RESULTS_FORMAT_FLAG_READER else 0) |||
  (if f.write then RASQAL_QUERY_RESULTS_FORMAT_FLAG_WRITER else 0)

/-- `rasqal_world_register_query_results_format_factory`.
The registry is `world->query_results_formats` as a list.  The callback
`register_factory` receives the freshly calloc-ed factory and returns the
mutated factory together with its `int` return code (non-zero = failure).

Faithful control flow: the factory is pushed onto the sequence *before* the
callback runs, so the sequence slot aliases the object the callback mutates.
On callback failure the function returns NULL and the (partially populated)
factory stays in the sequence.  On validation failure (`names` NULL/empty or
`label` NULL) the `tidy:` path frees the factory object, but the sequence
slot is not removed either; the embedding keeps the last contents of the slot.
Only on success are `desc.flags` derived from the supplied behaviours. -/
def rasqal_world_register_query_results_format_factory
    (reg : List Factory) (register_factory : Factory → Factory × Int) :
    List Factory × Option Factory :=
  let fr := register_factory emptyFactory
  let f := fr.1
  if fr.2 ≠ 0 then
    (reg ++ [f], none)
  else if f.desc.names = none ∨ f.desc.names = some [] ∨ f.desc.label = none then
    (reg ++ [f], none)
  else
    let f' : Factory :=
      { f with desc := { f.desc with flags := factoryFlags f } }
    (reg ++ [f'], some f')

/-- Undefined-behaviour branches reachable in
`rasqal_get_query_results_formatter_factory`. -/
inductive SelErr where
  /-- `factory->desc.names[namei]` indexed while `names` is NULL. -/
  | namesNull
  /-- `factory->desc.mime_types[mti]` indexed while `mime_types` is NULL
  (the mime scan, unlike the URI scan, has no NULL guard). -/
  | mimeTypesNull
deriving DecidableEq

/-- Per-candidate outcome inside the scan loop of the selector. -/
inductive CandOut where
  | select
  | skip
  | err (e : SelErr)
deriving DecidableEq

/-- The URI block shared (textually identical) by the selector (lines
219-233) and the guesser (lines 623-637): guarded on `uri_strings` being
non-NULL, exact string match against the entries. -/
def uriMatch (uri : Option String) (f : Factory) : Bool :=
  match uri, f.desc.uri_strings with
  | some u, some us => us.contains u
  | _, _ => false

/-- Selector lines 235-243: `mime_types` is indexed with no NULL check. -/
def candidateMime (mt : Option String) (f : Factory) : CandOut :=
  match mt with
  | none => .skip
  | some m =>
    match f.desc.mime_types with
    | none => .err .mimeTypesNull
    | some ts => if ts.any (fun t => t.mime_type == m) then .select else .skip

/-- Selector lines 219-233 followed by the mime block. -/
def candidateUri (uri mt : Option String) (f : Factory) : CandOut :=
  if uriMatch uri f then .select else candidateMime mt f

/-- Selector lines 209-243: name scan (NULL-unguarded `names` indexing),
then URI scan, then MIME scan, on one candidate. -/
def candidateOutcome (name uri mt : Option String) (f : Factory) : CandOut :=
  match name with
  | none => candidateUri uri mt f
  | some n =>
    match f.desc.names with
    | none => .err .namesNull
    | some ns => if ns.contains n then .select else candidateUri uri mt f

/-- The scan loop of `rasqal_get_query_results_formatter_factory`
(lines 188-244): flag filter, default selection when neither name nor URI
was supplied, then the per-candidate criteria. -/
def resolveAux (name uri mt : Option String) (flags : Nat) :
    List Factory → Except SelErr (Option Factory)
  | [] => .ok none
  | f :: rest =>
    if flags ≠ 0 ∧ factoryFlags f ≠ flags then
      resolveAux name uri mt flags rest
    else if name = none ∧ uri = none then
      .ok (some f)
    else
      match candidateOutcome name uri mt f with
      | .select => .ok (some f)
      | .err e => .error e
      | .skip => resolveAux name uri mt flags rest

/-- `rasqal_get_query_results_formatter_factory`: `.ok none` models the
NULL return after the scan exhausts the registry. -/
def rasqal_get_query_results_formatter_factory
    (reg : List Factory) (name uri mt : Option String) (flags : Nat) :
    Except SelErr (Option Factory) :=
  resolveAux name uri mt flags reg

/-! Suffix extraction (guesser lines 573-598) -/

/-- `strrchr(identifier, '.')`: the substring after the last `'.'`, or
`none` when the identifier contains no dot. -/
def afterLastDot : List Char → Option (List Char)
  | [] => none
  | c :: cs =>
    match afterLastDot cs with
    | some s => some s
    | none => if c = '.' then some cs else none

/-- The copy loop (lines 584-594): walk the characters after the dot; on
the first non-alphanumeric character free the suffix and stop with NULL;
otherwise copy, lower-casing upper-case characters. -/
def copySuffix : List Char → Option (List Char)
  | [] => some []
  | c :: cs =>
    if ¬(c.isAlpha ∨ c.isDigit) then none
    else
      match copySuffix cs with
      | none => none
      | some r => some ((if c.isUpper then c.toLower else c) :: r)

/-- Suffix extraction as the guesser performs it on a non-NULL identifier. -/
def extractSuffix (identifier : String) : Option String :=
  match afterLastDot identifier.data with
  | none => none
  | some p =>
    match copySuffix p with
    | none => none
    | some cs => some (String.mk cs)

/-- Modelled from the words of the spec (spec §4.3 step 1), for comparison with
`extractSuffix`: take the substring after the last dot; if every character
in it is alphanumeric, lower-case it, else discard the suffix entirely. -/
def suffixPerSpec (identifier : String) : Option String :=
  match afterLastDot identifier.data with
  | none => none
  | some p =>
    if p.all (fun c => c.isAlpha || c.isDigit) then
      some (String.mk (p.map Char.toLower))
    else none

/-! The guesser (`rasqal_world_guess_query_results_format_name`) -/

/-- Undefined-behaviour branches reachable in the guesser. -/
inductive GuessErr where
  /-- `factory->desc.names[0]` read while `names` is NULL (line 676). -/
  | namesNull
  /-- `scores[0]` read while the scores allocation holds zero slots
  (line 667 with an empty registry). -/
  | emptyScores
  /-- `buffer[1024]` touched although the buffer is shorter (lines 645-646
  with an overstated `len`). -/
  | bufferOOB
deriving DecidableEq

/-- One slot of the `syntax_score` array. -/
structure ScoreSlot where
  score : Int
  factory : Factory

/-- Outcome of the scan loop of the guesser (lines 600-662): the
short-circuiting factory if any, the recorded score slots, the final state
of the buffer owned by the caller, and for each `recognise_syntax` invocation the
index of the candidate and the buffer contents the callback saw. -/
structure ScanResult where
  selected : Option Factory
  slots : List ScoreSlot
  buffer : Option (List Nat)
  calls : List (Nat × Option (List Nat))

/-- Guesser lines 603-618.  The condition of the inner loop reads
`(type_q = &factory->desc.mime_types[j]) && type_q->mime_type`: the
address `&mime_types[j]` is never NULL, so after the loop `type_q` points
either at the matching entry or at the terminating entry, and the
`if(type_q)` guard on line 616 always fires — on no match the score
becomes the `q` of the terminator, not -1. -/
def mimeScore (mt : Option String) (f : Factory) : Int :=
  match mt, f.desc.mime_types with
  | some m, some ts =>
    match ts.find? (fun t => t.mime_type == m) with
    | some t => (t.q : Int)
    | none => (f.desc.mime_types_term_q : Int)
  | _, _ => -1

/-- Line 657: `score < 10 ? score : 10`. -/
def clampScore (s : Int) : Int := if s < 10 then s else 10

/-- One `recognise_syntax` invocation (lines 639-655): when a buffer is
present and `len > 1024`, save byte 1024, overwrite it with NUL for the
call, and restore it afterwards.  Returns the new score, the buffer as the
callback saw it, and the buffer state after the call. -/
def sniffStep (rec : RecogniseFn) (len : Nat)
    (identifier suffix mt : Option String) (score : Int)
    (buf : Option (List Nat)) :
    Except GuessErr (Int × Option (List Nat) × Option (List Nat)) :=
  match buf with
  | none => .ok (score + rec none len identifier suffix mt, none, none)
  | some b =>
    if len ≠ 0 ∧ 1024 < len then
      match b[1024]? with
      | none => .error .bufferOOB
      | some c =>
        let btrunc := b.set 1024 0
        .ok (score + rec (some btrunc) len identifier suffix mt,
             some btrunc, some (btrunc.set 1024 c))
    else
      .ok (score + rec (some b) len identifier suffix mt, some b, some b)

/-- The scan loop of the guesser (lines 600-662).  Per candidate: score starts
at -1, the MIME scan may overwrite it, `score >= 10` short-circuits, then
an exact URI match short-circuits, then `recognise_syntax` adds its
affinity, and the clamped score is recorded. -/
def guessScan (uri mt identifier suffix : Option String) (len : Nat) :
    Nat → Option (List Nat) → List Factory → Except GuessErr ScanResult
  | _, buf, [] => .ok ⟨none, [], buf, []⟩
  | i, buf, f :: rest =>
    let score := mimeScore mt f
    if 10 ≤ score then
      .ok ⟨some f, [], buf, []⟩
    else if uriMatch uri f then
      .ok ⟨some f, [], buf, []⟩
    else
      match f.recognise with
      | none =>
        match guessScan uri mt identifier suffix len (i + 1) buf rest with
        | .error e => .error e
        | .ok r => .ok ⟨r.selected, ⟨clampScore score, f⟩ :: r.slots, r.buffer, r.calls⟩
      | some rec =>
        match sniffStep rec len identifier suffix mt score buf with
        | .error e => .error e
        | .ok (score', seen, buf') =>
          match guessScan uri mt identifier suffix len (i + 1) buf' rest with
          | .error e => .error e
          | .ok r =>
            .ok ⟨r.selected, ⟨clampScore score', f⟩ :: r.slots, r.buffer,
                 (i, seen) :: r.calls⟩

/-- Lines 664-669: `qsort` the slots by score descending and read
`scores[0]`.  The comparator gives equal keys an unspecified order; this
embedding resolves the tie to the earliest recorded slot, one of the
permitted outcomes (no settled claim depends on the tie order). -/
def bestSlot : List ScoreSlot → Option ScoreSlot
  | [] => none
  | s :: rest =>
    match bestSlot rest with
    | none => some s
    | some t => if s.score < t.score then some t else some s

/-- Lines 664-669 as a whole: if no short-circuit fired, sort the recorded
slots, read `scores[0]` (undefined on a zero-slot allocation) and take its
factory when the top score is `>= 0`. -/
def pickFactory (r : ScanResult) : Except GuessErr (Option Factory) :=
  match r.selected with
  | some f => .ok (some f)
  | none =>
    match bestSlot r.slots with
    | none => .error GuessErr.emptyScores
    | some s => .ok (if 0 ≤ s.score then some s.factory else none)

/-- Line 676: `factory ? factory->desc.names[0] : NULL`.  A non-NULL empty
`names` array yields `names[0] = NULL`, an ordinary NULL return; a NULL
`names` pointer is a dereference of NULL. -/
def namesZero : Option Factory → Except GuessErr (Option String)
  | none => .ok none
  | some f =>
    match f.desc.names with
    | none => .error GuessErr.namesNull
    | some [] => .ok none
    | some (n :: _) => .ok (some n)

/-- Lines 573-598 as a whole: the suffix is extracted only when an
identifier was supplied. -/
def guessSuffix : Option String → Option String
  | none => none
  | some idn => extractSuffix idn

/-- `rasqal_world_guess_query_results_format_name`, instrumented: besides
the returned name it exposes the final state of the buffer of the caller and
the list of `recognise_syntax` invocations (candidate index, buffer seen). -/
def guessFull (reg : List Factory) (uri mt : Option String)
    (buffer : Option (List Nat)) (len : Nat) (identifier : Option String) :
    Except GuessErr (Option String × Option (List Nat) × List (Nat × Option (List Nat))) :=
  match guessScan uri mt identifier (guessSuffix identifier) len 0 buffer reg with
  | .error e => .error e
  | .ok r =>
    match pickFactory r with
    | .error e => .error e
    | .ok sel =>
      match namesZero sel with
      | .error e => .error e
      | .ok n => .ok (n, r.buffer, r.calls)

/-- `rasqal_world_guess_query_results_format_name`: the returned name. -/
def rasqal_world_guess_query_results_format_name (reg : List Factory)
    (uri mt : Option String) (buffer : Option (List Nat)) (len : Nat)
    (identifier : Option String) : Except GuessErr (Option String) :=
  match guessFull reg uri mt buffer len identifier with
  | .error e => .error e
  | .ok (r, _, _) => .ok r

/-- A buffer/length pair a C caller may legally pass: `len` never
overstates the extent of the allocation behind `buffer`. -/
def bufLenOk (buf : Option (List Nat)) (len : Nat) : Prop :=
  match buf with
  | none => True
  | some b => 1024 < len → 1024 < b.length

/-! Concrete registration callbacks and factories used to instantiate the
theorems below on explicit inputs. -/

/-- A registration callback that fails (returns non-zero) without
populating anything. -/
def failRegFn : Factory → Factory × Int := fun f => (f, 1)

/-- A registration callback that populates names and label, supplies the
`write` behaviour, and scribbles 999 into `desc.flags`. -/
def okRegFn : Factory → Factory × Int := fun f =>
  ({ f with
     desc := { f.desc with names := some ["fmt"], label := some "Fmt", flags := 999 },
     write := true }, 0)

/-- The factory `okRegFn` registration ends up storing: flags re-derived
to WRITER only. -/
def okRegFactory : Factory :=
  { desc := { names := some ["fmt"], label := some "Fmt", uri_strings := none,
              mime_types := none, mime_types_term_q := 0, flags := 2 },
    get_rowsource := false, write := true, recognise := none }

/-- A factory identified by URI only. -/
def uriOnlyFactory : Factory :=
  { emptyFactory with
    desc := { emptyFactory.desc with
              names := some ["brows"], label := some "B",
              uri_strings := some ["http://example.org/u"] } }

/-- A factory named "json". -/
def jsonNameFactory : Factory :=
  { emptyFactory with
    desc := { emptyFactory.desc with
              names := some ["json"], label := some "A" } }

/-- A factory declaring one MIME type at quality 10, terminator `q` 0. -/
def xmlFactory : Factory :=
  { emptyFactory with
    desc := { emptyFactory.desc with
              names := some ["xml"], label := some "SPARQL XML",
              mime_types := some [⟨"application/sparql-results+xml", 10⟩] } }

/-- A reader-and-writer factory. -/
def readerWriterFactory : Factory :=
  { emptyFactory with
    desc := { emptyFactory.desc with names := some ["rw"], label := some "RW" },
    get_rowsource := true, write := true }

/-- A reader-only factory. -/
def readerFactory : Factory :=
  { emptyFactory with
    desc := { emptyFactory.desc with names := some ["r"], label := some "R" },
    get_rowsource := true }

/-- A factory with no `mime_types` array at all. -/
def noMimeFactory : Factory :=
  { emptyFactory with
    desc := { emptyFactory.desc with names := some ["q"], label := some "Q" } }

/-- A factory whose content recogniser scores every buffer very highly. -/
def strongSniffFactory : Factory :=
  { emptyFactory with
    desc := { emptyFactory.desc with names := some ["y"], label := some "Y" },
    recognise := some (fun _ _ _ _ _ => 100) }

/-- A factory declaring MIME type "application/x" at quality 10. -/
def mimeTenFactory : Factory :=
  { emptyFactory with
    desc := { emptyFactory.desc with
              names := some ["x"], label := some "X",
              mime_types := some [⟨"application/x", 10⟩] } }

/-- A factory with a constant-score recogniser. -/
def sniffFactory : Factory :=
  { emptyFactory with
    desc := { emptyFactory.desc with names := some ["w"], label := some "W" },
    recognise := some (fun _ _ _ _ _ => 1) }

/-- A 1025-byte buffer of sevens. -/
def bigBuffer : List Nat := List.replicate 1025 7

/-! General-purpose helper lemmas. -/

theorem set_self_of_getElem_opt (l : List Nat) (n : Nat) (c : Nat)
    (h : l[n]? = some c) : l.set n c = l := by
  have hn : n < l.length := by
    by_contra hc
    rw [List.getElem?_eq_none (Nat.le_of_not_lt hc)] at h
    exact Option.noConfusion h
  apply List.ext_getElem
  · simp
  · intro i h1 h2
    rcases eq_or_ne i n with rfl | hne
    · rw [List.getElem_set_self]
      rw [List.getElem?_eq_getElem hn] at h
      exact (Option.some.inj h).symm
    · rw [List.getElem_set_ne (fun he => hne he.symm)]

theorem lower_of_cond (c : Char) :
    (if c.isUpper then c.toLower else c) = c.toLower := by
  cases hu : c.isUpper
  · simp only [Bool.false_eq_true, if_false]
    have h : ¬(65 ≤ c.toNat ∧ c.toNat ≤ 90) := by
      rintro ⟨h1, h2⟩
      have ht : c.isUpper = true := by
        simp only [Char.isUpper, Bool.and_eq_true, decide_eq_true_eq]
        exact ⟨h1, h2⟩
      rw [hu] at ht
      exact Bool.noConfusion ht
    have he : Char.toLower c = c := by
      show (if 65 ≤ c.toNat ∧ c.toNat ≤ 90 then Char.ofNat (c.toNat + 32) else c) = c
      rw [if_neg h]
    rw [he]
  · simp only [if_true]

/-! Claims about registration (C1, C5). -/

/-- C1 counterexample: with an empty registry and a registration callback
that fails, registration fails yet the registry length becomes 1 — the
pushed entry stays visible, refuting the claim that the registry is left
exactly as it was before the call. -/
theorem register_failing_callback_grows_registry :
    (rasqal_world_register_query_results_format_factory [] failRegFn).2 = none ∧
    ((rasqal_world_register_query_results_format_factory [] failRegFn).1).length = 1 :=
  ⟨rfl, rfl⟩

/-- C1 amended: on any failing registration attempt (callback failure or
validation failure) registration fails, but the registry is extended by the
pushed entry: all prior entries are unchanged and the factory the callback
produced is visible at the last index. -/
theorem register_failure_appends_entry (reg : List Factory)
    (regFn : Factory → Factory × Int)
    (h : (rasqal_world_register_query_results_format_factory reg regFn).2 = none) :
    (rasqal_world_register_query_results_format_factory reg regFn).1 =
      reg ++ [(regFn emptyFactory).1] := by
  by_cases h1 : (regFn emptyFactory).2 ≠ 0
  · simp only [rasqal_world_register_query_results_format_factory, if_pos h1]
  · by_cases h2 : (regFn emptyFactory).1.desc.names = none ∨
        (regFn emptyFactory).1.desc.names = some [] ∨
        (regFn emptyFactory).1.desc.label = none
    · simp only [rasqal_world_register_query_results_format_factory, if_neg h1, if_pos h2]
    · simp only [rasqal_world_register_query_results_format_factory,
        if_neg h1, if_neg h2] at h
      exact Option.noConfusion h

/-- C1 amended, witness at the concrete failing callback. -/
theorem register_failure_appends_entry_witness :
    (rasqal_world_register_query_results_format_factory [] failRegFn).1 =
      [] ++ [(failRegFn emptyFactory).1] :=
  register_failure_appends_entry [] failRegFn rfl

/-- C5: whenever registration succeeds, the stored factory has its flags
derived from the supplied behaviours — READER (bit 0) iff `get_rowsource`
is present and WRITER (bit 1) iff `write` is present — independent of
whatever the registration callback wrote into `desc.flags`, and the new
entry is appended after the unchanged prior entries. -/
theorem register_success_derives_flags (reg : List Factory)
    (regFn : Factory → Factory × Int) (reg' : List Factory) (f : Factory)
    (h : rasqal_world_register_query_results_format_factory reg regFn = (reg', some f)) :
    (f.desc.flags.testBit 0 = f.get_rowsource ∧
     f.desc.flags.testBit 1 = f.write) ∧ reg' = reg ++ [f] := by
  unfold rasqal_world_register_query_results_format_factory at h
  by_cases h1 : (regFn emptyFactory).2 ≠ 0
  · rw [if_pos h1] at h
    exact Option.noConfusion (congrArg Prod.snd h)
  · rw [if_neg h1] at h
    by_cases h2 : (regFn emptyFactory).1.desc.names = none ∨
        (regFn emptyFactory).1.desc.names = some [] ∨
        (regFn emptyFactory).1.desc.label = none
    · rw [if_pos h2] at h
      exact Option.noConfusion (congrArg Prod.snd h)
    · rw [if_neg h2] at h
      have hs : some _ = some f := congrArg Prod.snd h
      obtain rfl := (Option.some.inj hs).symm
      have hf : _ = reg' := congrArg Prod.fst h
      refine ⟨?_, hf.symm⟩
      cases hgr : (regFn emptyFactory).1.get_rowsource <;>
        cases hgw : (regFn emptyFactory).1.write <;>
          simp [factoryFlags, hgr, hgw,
            RASQAL_QUERY_RESULTS_FORMAT_FLAG_READER,
            RASQAL_QUERY_RESULTS_FORMAT_FLAG_WRITER] <;>
          decide

/-- C5 witness: the concrete callback that sets `write` and scribbles 999
into flags yields a stored factory with flags exactly WRITER. -/
theorem register_success_derives_flags_witness :
    (okRegFactory.desc.flags.testBit 0 = okRegFactory.get_rowsource ∧
     okRegFactory.desc.flags.testBit 1 = okRegFactory.write) ∧
    [okRegFactory] = [] ++ [okRegFactory] :=
  register_success_derives_flags [] okRegFn [okRegFactory] okRegFactory rfl

/-! Claims about the selector (C2, C6, C9). -/

/-- C6: with non-zero `requiredFlags`, any factory the selector returns has
derived flags exactly equal to the request; in particular a READER-only
request never yields a factory that supplies both behaviours. -/
theorem resolve_nonzero_flags_exact (name uri mt : Option String)
    (flags : Nat) (reg : List Factory) (f : Factory) (hfl : flags ≠ 0)
    (h : rasqal_get_query_results_formatter_factory reg name uri mt flags =
      .ok (some f)) :
    factoryFlags f = flags ∧
      (flags = RASQAL_QUERY_RESULTS_FORMAT_FLAG_READER →
        ¬(f.get_rowsource = true ∧ f.write = true)) := by
  have main : factoryFlags f = flags := by
    induction reg with
    | nil => exact Option.noConfusion (Except.ok.inj h)
    | cons g rest ih =>
      rw [rasqal_get_query_results_formatter_factory, resolveAux] at h
      by_cases hskip : flags ≠ 0 ∧ factoryFlags g ≠ flags
      · rw [if_pos hskip] at h
        exact ih h
      · rw [if_neg hskip] at h
        have hg : factoryFlags g = flags := by
          by_contra hne
          exact hskip ⟨hfl, hne⟩
        by_cases hdef : name = none ∧ uri = none
        · rw [if_pos hdef] at h
          obtain rfl := Option.some.inj (Except.ok.inj h)
          exact hg
        · rw [if_neg hdef] at h
          cases hco : candidateOutcome name uri mt g <;> rw [hco] at h
          · obtain rfl := Option.some.inj (Except.ok.inj h)
            exact hg
          · exact ih h
          · exact Except.noConfusion h
  refine ⟨main, ?_⟩
  rintro rfl ⟨hr, hw⟩
  rw [factoryFlags, hr, hw] at main
  exact absurd main (by decide)

/-- C6 witness: a READER-only request skips the reader-and-writer factory
and selects the reader-only one, whose derived flags equal the request. -/
theorem resolve_nonzero_flags_exact_witness :
    factoryFlags readerFactory = 1 ∧
      (1 = RASQAL_QUERY_RESULTS_FORMAT_FLAG_READER →
        ¬(readerFactory.get_rowsource = true ∧ readerFactory.write = true)) :=
  resolve_nonzero_flags_exact (some "r") none none 1
    [readerWriterFactory, readerFactory] readerFactory (by decide) rfl

/-- C2 counterexample: factory `uriOnlyFactory` (URI match only) is
registered before `jsonNameFactory` (which carries the requested name
"json"); a request supplying both the name and the URI returns the earlier
URI-matching factory, not any factory whose names contain "json" — the
claimed absolute cross-candidate priority of name over URI is false. -/
theorem resolve_uri_beats_later_name :
    ¬(∃ f, rasqal_get_query_results_formatter_factory
        [uriOnlyFactory, jsonNameFactory]
        (some "json") (some "http://example.org/u") none 0 = .ok (some f) ∧
      ∃ fs, f.desc.names = some fs ∧ "json" ∈ fs) := by
  rintro ⟨f, hres, fs, hfs, hmem⟩
  have hB : rasqal_get_query_results_formatter_factory
      [uriOnlyFactory, jsonNameFactory]
      (some "json") (some "http://example.org/u") none 0 =
      .ok (some uriOnlyFactory) := rfl
  rw [hB] at hres
  obtain rfl := Option.some.inj (Except.ok.inj hres)
  have hbfs : (some ["brows"] : Option (List String)) = some fs := hfs
  obtain rfl := Option.some.inj hbfs
  exact absurd hmem (by decide)

/-- C2 amended: the name-matching factory is returned only when no
earlier candidate matches any supplied criterion: if every factory before
`A` either fails the flag filter or matches neither the name nor the URI,
a request carrying the name (and possibly a URI, no MIME type) selects
`A`.  Name has priority over URI only within a single candidate. -/
theorem resolve_name_selected_when_no_earlier_match
    (A : Factory) (post : List Factory) (n : String) (uri : Option String)
    (flags : Nat) (ns : List String)
    (hA : A.desc.names = some ns) (hn : ns.contains n = true)
    (hAflag : ¬(flags ≠ 0 ∧ factoryFlags A ≠ flags)) :
    ∀ pre : List Factory,
      (∀ g ∈ pre, (flags ≠ 0 ∧ factoryFlags g ≠ flags) ∨
        (∃ gs, g.desc.names = some gs ∧ gs.contains n = false ∧
          uriMatch uri g = false)) →
      rasqal_get_query_results_formatter_factory (pre ++ A :: post)
        (some n) uri none flags = .ok (some A) := by
  intro pre
  induction pre with
  | nil =>
    intro _
    rw [rasqal_get_query_results_formatter_factory, List.nil_append, resolveAux,
      if_neg hAflag, if_neg (by rintro ⟨hc, _⟩; exact Option.noConfusion hc)]
    have hsel : candidateOutcome (some n) uri none A = .select := by
      rw [candidateOutcome, hA]
      simp only [hn, if_true]
    rw [hsel]
  | cons g pre' ih =>
    intro hpre
    rw [List.cons_append, rasqal_get_query_results_formatter_factory, resolveAux]
    rcases hpre g (List.mem_cons_self g pre') with hskip | ⟨gs, hgs, hgn, hgu⟩
    · rw [if_pos hskip]
      exact ih (fun x hx => hpre x (List.mem_cons_of_mem g hx))
    · by_cases hskip : flags ≠ 0 ∧ factoryFlags g ≠ flags
      · rw [if_pos hskip]
        exact ih (fun x hx => hpre x (List.mem_cons_of_mem g hx))
      · rw [if_neg hskip, if_neg (by rintro ⟨hc, _⟩; exact Option.noConfusion hc)]
        have hskp : candidateOutcome (some n) uri none g = .skip := by
          rw [candidateOutcome, hgs]
          simp only [hgn, Bool.false_eq_true, if_false]
          rw [candidateUri, if_neg (by rw [hgu]; exact Bool.noConfusion)]
          rfl
        rw [hskp]
        exact ih (fun x hx => hpre x (List.mem_cons_of_mem g hx))

/-- C2 amended, witness: with a non-matching URI, the later name-matching
factory is selected. -/
theorem resolve_name_selected_when_no_earlier_match_witness :
    rasqal_get_query_results_formatter_factory
      [uriOnlyFactory, jsonNameFactory] (some "json") (some "http://other/")
      none 0 = .ok (some jsonNameFactory) :=
  resolve_name_selected_when_no_earlier_match jsonNameFactory [] "json"
    (some "http://other/") 0 ["json"] rfl (by decide)
    (by rintro ⟨hc, _⟩; exact hc rfl) [uriOnlyFactory]
    (fun g hg => by
      rw [List.mem_singleton] at hg
      subst hg
      exact Or.inr ⟨["brows"], rfl, by decide, by decide⟩)

/-- C9: the MIME scan of the selector indexes `desc.mime_types` without a
NULL guard: whenever the scan reaches a flag-matching candidate that
declares no `mime_types`, with a name supplied that the candidate does not
carry, no URI match, and a MIME type supplied, the embedding hits the
dereference-of-NULL error branch. -/
theorem resolve_mime_scan_unguarded (f : Factory) (rest : List Factory)
    (n m : String) (uri : Option String) (flags : Nat) (ns : List String)
    (hflag : ¬(flags ≠ 0 ∧ factoryFlags f ≠ flags))
    (hnames : f.desc.names = some ns) (hn : ns.contains n = false)
    (huri : uriMatch uri f = false)
    (hmime : f.desc.mime_types = none) :
    rasqal_get_query_results_formatter_factory (f :: rest)
      (some n) uri (some m) flags = .error SelErr.mimeTypesNull := by
  rw [rasqal_get_query_results_formatter_factory, resolveAux,
    if_neg hflag, if_neg (by rintro ⟨hc, _⟩; exact Option.noConfusion hc)]
  have herr : candidateOutcome (some n) uri (some m) f = .err .mimeTypesNull := by
    rw [candidateOutcome, hnames]
    simp only [hn, Bool.false_eq_true, if_false]
    rw [candidateUri, if_neg (by rw [huri]; exact Bool.noConfusion)]
    rw [candidateMime, hmime]
  rw [herr]

/-- C9 witness: a registry holding one factory with no `mime_types`,
queried by an unknown name plus a MIME type, reaches the error branch. -/
theorem resolve_mime_scan_unguarded_witness :
    rasqal_get_query_results_formatter_factory [noMimeFactory]
      (some "zzz") none (some "text/x") 0 = .error SelErr.mimeTypesNull :=
  resolve_mime_scan_unguarded noMimeFactory [] "zzz" "text/x" none 0 ["q"]
    (by rintro ⟨hc, _⟩; exact hc rfl) rfl (by decide) (by decide) rfl

/-! Claim about suffix extraction (C7). -/

theorem copySuffix_all (p : List Char) :
    copySuffix p =
      if p.all (fun c => c.isAlpha || c.isDigit) then some (p.map Char.toLower)
      else none := by
  induction p with
  | nil => rfl
  | cons c cs ih =>
    by_cases hc : (c.isAlpha || c.isDigit) = true
    · have hor : (c.isAlpha ∨ c.isDigit) := by
        simpa using hc
      rw [copySuffix, if_neg (not_not_intro hor), ih]
      by_cases hall : cs.all (fun x => x.isAlpha || x.isDigit) = true
      · have hcc : ((c :: cs).all fun x => x.isAlpha || x.isDigit) = true := by
          simp [List.all_cons, hc, hall]
        rw [if_pos hall, if_pos hcc, List.map_cons, lower_of_cond]
      · have hcc : ¬((c :: cs).all fun x => x.isAlpha || x.isDigit) = true := by
          simp [List.all_cons, hall]
        rw [if_neg hall, if_neg hcc]
    · have hor : ¬(c.isAlpha ∨ c.isDigit) := by
        simpa using hc
      have hcc : ¬((c :: cs).all fun x => x.isAlpha || x.isDigit) = true := by
        simp only [List.all_cons, Bool.and_eq_true]
        rintro ⟨h1, _⟩
        exact absurd (by simpa using h1) hor
      rw [copySuffix, if_pos hor, if_neg hcc]

/-- C7: suffix extraction behaves exactly as the spec describes it — for
every identifier, the code-level extraction agrees with the spec-level
description (substring after the last dot, kept only when fully
alphanumeric, lower-cased), and the three spec examples evaluate as
stated. -/
theorem suffix_extraction_spec :
    (∀ s : String, extractSuffix s = suffixPerSpec s) ∧
    extractSuffix "report.CSV" = some "csv" ∧
    extractSuffix "no-dot-name" = none ∧
    extractSuffix "file.na-me" = none := by
  refine ⟨?_, by decide, by decide, by decide⟩
  intro s
  cases hd : afterLastDot s.data with
  | none => simp only [extractSuffix, suffixPerSpec, hd]
  | some p =>
    simp only [extractSuffix, suffixPerSpec, hd, copySuffix_all]
    by_cases hall : p.all (fun c => c.isAlpha || c.isDigit) = true
    · rw [if_pos hall, if_pos hall]
    · rw [if_neg hall, if_neg hall]

/-! Claims about the guesser (C3, C4, C8, C10). -/

/-- C3: the code does NOT leave the score at -1 when the supplied MIME
type matches no declared entry.  With one registered factory declaring
only "application/sparql-results+xml" and a guess for "text/plain", the
scan records score 0 (the `q` of the terminating array entry, because the
`if(type_q)` guard on line 616 is always true), so the guess returns the
factory name instead of the absent signal the claim predicts. -/
theorem guess_unmatched_mime_returns_name :
    mimeScore (some "text/plain") xmlFactory = 0 ∧
    rasqal_world_guess_query_results_format_name [xmlFactory]
      none (some "text/plain") none 0 none = .ok (some "xml") :=
  ⟨rfl, rfl⟩

/-- C10: with an empty registry the scan records no score slot and the
unconditional `scores[0]` read on line 667 indexes an empty allocation —
for every argument combination the embedding hits the error branch, so a
non-empty registry is a precondition of the guesser. -/
theorem guess_empty_registry_errors (uri mt : Option String)
    (buffer : Option (List Nat)) (len : Nat) (identifier : Option String) :
    rasqal_world_guess_query_results_format_name [] uri mt buffer len
      identifier = .error GuessErr.emptyScores := rfl

theorem sniffStep_ok (rec : RecogniseFn) (len : Nat)
    (identifier suffix mt : Option String) (score : Int)
    (buf : Option (List Nat)) (hbuf : bufLenOk buf len) :
    ∃ s' seen buf', sniffStep rec len identifier suffix mt score buf =
      .ok (s', seen, buf') ∧ bufLenOk buf' len := by
  cases buf with
  | none => exact ⟨_, _, _, rfl, trivial⟩
  | some b =>
    by_cases hlen : len ≠ 0 ∧ 1024 < len
    · have hb : 1024 < b.length := hbuf hlen.2
      have hg : b[1024]? = some b[1024] := List.getElem?_eq_getElem hb
      refine ⟨score + rec (some (b.set 1024 0)) len identifier suffix mt,
              some (b.set 1024 0),
              some ((b.set 1024 0).set 1024 b[1024]), ?_, ?_⟩
      · simp only [sniffStep, if_pos hlen, hg]
      · intro hgt
        simpa using hb
    · refine ⟨score + rec (some b) len identifier suffix mt,
              some b, some b, ?_, hbuf⟩
      simp only [sniffStep, if_neg hlen]

theorem guessScan_mime_short_circuit (uri : Option String) (m : String)
    (identifier suffix : Option String) (len : Nat) (X : Factory)
    (hX : 10 ≤ mimeScore (some m) X) :
    ∀ (pre post : List Factory) (i : Nat) (buf : Option (List Nat)),
      (∀ g ∈ pre, mimeScore (some m) g < 10 ∧ uriMatch uri g = false) →
      bufLenOk buf len →
      ∃ slots buf' calls,
        guessScan uri (some m) identifier suffix len i buf (pre ++ X :: post) =
          .ok ⟨some X, slots, buf', calls⟩ ∧
        ∀ p ∈ calls, p.1 < i + pre.length := by
  intro pre
  induction pre with
  | nil =>
    intro post i buf _ _
    refine ⟨[], buf, [], ?_, fun p hp => absurd hp (List.not_mem_nil p)⟩
    simp only [List.nil_append, guessScan, if_pos hX]
  | cons g pre' ih =>
    intro post i buf hpre hbuf
    obtain ⟨hg10, hguri⟩ := hpre g (List.mem_cons_self g pre')
    have hnot10 : ¬(10 ≤ mimeScore (some m) g) := not_le.mpr hg10
    have hnoturi : ¬(uriMatch uri g = true) := by
      rw [hguri]; exact Bool.noConfusion
    cases hrec : g.recognise with
    | none =>
      obtain ⟨slots, buf', calls, hscan, hb⟩ :=
        ih post (i + 1) buf
          (fun x hx => hpre x (List.mem_cons_of_mem g hx)) hbuf
      refine ⟨⟨clampScore (mimeScore (some m) g), g⟩ :: slots, buf', calls, ?_, ?_⟩
      · simp only [List.cons_append, guessScan, if_neg hnot10, if_neg hnoturi,
          hrec, List.append_eq, hscan]
      · intro p hp
        have := hb p hp
        simp only [List.length_cons]
        omega
    | some rec =>
      obtain ⟨s', seen, buf1, hstep, hbuf1⟩ :=
        sniffStep_ok rec len identifier suffix (some m)
          (mimeScore (some m) g) buf hbuf
      obtain ⟨slots, buf', calls, hscan, hb⟩ :=
        ih post (i + 1) buf1
          (fun x hx => hpre x (List.mem_cons_of_mem g hx)) hbuf1
      refine ⟨⟨clampScore s', g⟩ :: slots, buf', (i, seen) :: calls, ?_, ?_⟩
      · simp only [List.cons_append, guessScan, if_neg hnot10, if_neg hnoturi,
          hrec, hstep, List.append_eq, hscan]
      · intro p hp
        rcases List.mem_cons.mp hp with rfl | hp'
        · simp only [List.length_cons]
          omega
        · have := hb p hp'
          simp only [List.length_cons]
          omega

/-- C4: if the supplied MIME type exactly matches a declared entry of
factory `X` with quality at least 10, and no earlier-registered factory
reaches MIME score 10 or matches the URI exactly, then the guess
short-circuits to `X`: it returns the canonical name of `X` with no
sorting, and the only `recognise_syntax` invocations are of factories
registered before `X` — no later factory is evaluated at all, however
strongly its recogniser would score the content. -/
theorem guess_mime_quality_short_circuit
    (pre post : List Factory) (X : Factory) (uri identifier : Option String)
    (m : String) (buffer : Option (List Nat)) (len : Nat)
    (ts : List TypeQ) (t : TypeQ) (n : String) (morenames : List String)
    (hts : X.desc.mime_types = some ts)
    (hfind : ts.find? (fun e => e.mime_type == m) = some t)
    (hq : 10 ≤ t.q)
    (hnames : X.desc.names = some (n :: morenames))
    (hpre : ∀ g ∈ pre, mimeScore (some m) g < 10 ∧ uriMatch uri g = false)
    (hbuf : bufLenOk buffer len) :
    ∃ buf' calls,
      guessFull (pre ++ X :: post) uri (some m) buffer len identifier =
        .ok (some n, buf', calls) ∧ ∀ p ∈ calls, p.1 < pre.length := by
  have hX : 10 ≤ mimeScore (some m) X := by
    have hms : mimeScore (some m) X = (t.q : Int) := by
      simp only [mimeScore, hts, hfind]
    rw [hms]
    exact_mod_cast hq
  obtain ⟨slots, buf', calls, hscan, hbound⟩ :=
    guessScan_mime_short_circuit uri m identifier
      (guessSuffix identifier) len X hX pre post 0 buffer hpre hbuf
  refine ⟨buf', calls, ?_, by simpa using hbound⟩
  simp only [guessFull, hscan, pickFactory, namesZero, hnames]

/-- C4 witness: the strong sniffer registered first cannot beat the
quality-10 MIME match of the factory registered second; only the first
factory (index 0) is ever sniffed. -/
theorem guess_mime_quality_short_circuit_witness :
    ∃ buf' calls,
      guessFull [strongSniffFactory, mimeTenFactory] none (some "application/x")
        none 0 none = .ok (some "x", buf', calls) ∧
      ∀ p ∈ calls, p.1 < [strongSniffFactory].length :=
  guess_mime_quality_short_circuit [strongSniffFactory] [] mimeTenFactory
    none none "application/x" none 0 [⟨"application/x", 10⟩]
    ⟨"application/x", 10⟩ "x" [] rfl rfl (by decide) rfl
    (fun g hg => by
      rw [List.mem_singleton] at hg
      subst hg
      exact ⟨by decide, by decide⟩)
    trivial

theorem guessScan_restores (uri mt identifier suffix : Option String)
    (len : Nat) (b : List Nat) (hlen : len = b.length) (hgt : 1024 < len) :
    ∀ (reg : List Factory) (i : Nat) (r : ScanResult),
      guessScan uri mt identifier suffix len i (some b) reg = .ok r →
      r.buffer = some b ∧ ∀ p ∈ r.calls, p.2 = some (b.set 1024 0) := by
  have hb1024 : 1024 < b.length := hlen ▸ hgt
  have hg1024 : b[1024]? = some b[1024] := List.getElem?_eq_getElem hb1024
  have hrestore : (b.set 1024 0).set 1024 b[1024] = b := by
    rw [List.set_set]
    exact set_self_of_getElem_opt b 1024 b[1024] hg1024
  intro reg
  induction reg with
  | nil =>
    intro i r h
    obtain rfl := Except.ok.inj h
    exact ⟨rfl, fun p hp => absurd hp (List.not_mem_nil p)⟩
  | cons f rest ih =>
    intro i r h
    simp only [guessScan] at h
    by_cases h10 : 10 ≤ mimeScore mt f
    · rw [if_pos h10] at h
      obtain rfl := Except.ok.inj h
      exact ⟨rfl, fun p hp => absurd hp (List.not_mem_nil p)⟩
    · rw [if_neg h10] at h
      by_cases huri : uriMatch uri f = true
      · rw [if_pos huri] at h
        obtain rfl := Except.ok.inj h
        exact ⟨rfl, fun p hp => absurd hp (List.not_mem_nil p)⟩
      · rw [if_neg huri] at h
        cases hrec : f.recognise with
        | none =>
          simp only [hrec] at h
          cases hg : guessScan uri mt identifier suffix len (i + 1) (some b) rest with
          | error e =>
            rw [hg] at h
            exact Except.noConfusion h
          | ok r' =>
            rw [hg] at h
            obtain rfl := Except.ok.inj h
            obtain ⟨hbuf, hcalls⟩ := ih (i + 1) r' hg
            exact ⟨hbuf, hcalls⟩
        | some rec =>
          simp only [hrec] at h
          have hlen0 : len ≠ 0 ∧ 1024 < len := ⟨by omega, hgt⟩
          have hstep : sniffStep rec len identifier suffix mt
              (mimeScore mt f) (some b) =
              .ok (mimeScore mt f +
                     rec (some (b.set 1024 0)) len identifier suffix mt,
                   some (b.set 1024 0), some b) := by
            simp only [sniffStep, if_pos hlen0, hg1024, hrestore]
          simp only [hstep] at h
          cases hg : guessScan uri mt identifier suffix len (i + 1) (some b) rest with
          | error e =>
            rw [hg] at h
            exact Except.noConfusion h
          | ok r' =>
            rw [hg] at h
            obtain rfl := Except.ok.inj h
            obtain ⟨hbuf, hcalls⟩ := ih (i + 1) r' hg
            refine ⟨hbuf, ?_⟩
            intro p hp
            rcases List.mem_cons.mp hp with rfl | hp'
            · rfl
            · exact hcalls p hp'

/-- C8: when the supplied buffer is longer than 1024 bytes (and `len`
states its true length), every `recognise_syntax` invocation during a
guess sees the buffer with byte 1024 replaced by NUL, and whenever the
guess returns, the buffer owned by the caller is byte-for-byte identical
to what was passed in — the saved byte is restored after every call. -/
theorem guess_restores_buffer (reg : List Factory)
    (uri mt identifier : Option String) (b : List Nat) (len : Nat)
    (hlen : len = b.length) (hgt : 1024 < len)
    (out : Option String × Option (List Nat) × List (Nat × Option (List Nat)))
    (h : guessFull reg uri mt (some b) len identifier = .ok out) :
    out.2.1 = some b ∧ ∀ p ∈ out.2.2, p.2 = some (b.set 1024 0) := by
  simp only [guessFull] at h
  cases hg : guessScan uri mt identifier (guessSuffix identifier) len 0
      (some b) reg with
  | error e =>
    simp only [hg] at h
    exact Except.noConfusion h
  | ok r =>
    simp only [hg] at h
    obtain ⟨hbuf, hcalls⟩ :=
      guessScan_restores uri mt identifier (guessSuffix identifier) len b
        hlen hgt reg 0 r hg
    cases hp : pickFactory r with
    | error e =>
      simp only [hp] at h
      exact Except.noConfusion h
    | ok sel =>
      simp only [hp] at h
      cases hn : namesZero sel with
      | error e =>
        simp only [hn] at h
        exact Except.noConfusion h
      | ok nm =>
        simp only [hn] at h
        obtain rfl := Except.ok.inj h
        exact ⟨hbuf, hcalls⟩

/-- C8 witness: guessing over a 1025-byte buffer returns with the buffer
of the caller unchanged (here with a factory that does not sniff, so the
set of recognise invocations is empty). -/
theorem guess_restores_buffer_witness :
    ((none, some bigBuffer, ([] : List (Nat × Option (List Nat)))) :
      Option String × Option (List Nat) ×
        List (Nat × Option (List Nat))).2.1 = some bigBuffer ∧
    ∀ p ∈ ((none, some bigBuffer, ([] : List (Nat × Option (List Nat)))) :
      Option String × Option (List Nat) ×
        List (Nat × Option (List Nat))).2.2,
      p.2 = some (bigBuffer.set 1024 0) :=
  guess_restores_buffer [readerFactory] none none none bigBuffer 1025
    (by rw [bigBuffer, List.length_replicate]) (by omega)
    (none, some bigBuffer, []) rfl

end Rasqal
